import Mathlib

set_option maxRecDepth 100000

/-!
Shallow embedding of the bps-fuse ROM-patching tool, for checking its
specification.  Byte streams are `List Nat` (each element a byte value);
machine integers are `Nat`/`Int` with explicit `% 2 ^ 64` where the Rust
code's `u64`/`usize`/`isize` arithmetic can wrap.  Fallible operations
return `Option`/`Except`; a Rust panic (slice index out of range,
`unwrap` on an error) is modelled by a dedicated `panicked` outcome,
distinct from returned error values.
-/

/-- Model of `<[T]>::clone_from_slice` / `Read::read_exact` into
`l[i .. i + vals.length]`: replace that range of `l` by `vals`.
Callers check the range bound first (Rust panics otherwise). -/
def writeSlice (l : List Nat) (i : Nat) (vals : List Nat) : List Nat :=
  l.take i ++ vals ++ l.drop (i + vals.length)

/-- Model of `<[T]>::fill` on `l[i .. i + len]` (src/src/patch/ips.rs:108). -/
def listFill (l : List Nat) (i len v : Nat) : List Nat :=
  l.take i ++ List.replicate len v ++ l.drop (i + len)

/-- Model of `Vec::resize(n, 0)` (src/src/patch/ips.rs:88 and 115):
truncate to `n` elements, or grow with zero padding. -/
def listResize (l : List Nat) (n : Nat) : List Nat :=
  l.take n ++ List.replicate (n - l.length) 0

/-- Inner bit loop of IEEE-802.3 CRC-32 (external `crc` crate,
`crc32::checksum_ieee`): `k` rounds of shift/xor with the reflected
polynomial 0xEDB88320. -/
def crc32Bits : Nat → Nat → Nat
  | c, 0 => c
  | c, k + 1 => crc32Bits (if c &&& 1 = 1 then (c >>> 1) ^^^ 0xEDB88320 else c >>> 1) k

/-- IEEE-802.3 CRC-32 of a byte buffer (external `crc` crate,
`crc32::checksum_ieee`). -/
def crc32 (data : List Nat) : Nat :=
  (data.foldl (fun c b => crc32Bits (c ^^^ b) 8) 0xFFFFFFFF) ^^^ 0xFFFFFFFF

/-- Loop of `ReadExt::read_vlq` (src/src/utils.rs:6-19), carrying the
`data` and `shift` accumulators (`u64`, hence the `% 2 ^ 64`; in the
source, release builds wrap exactly like this).  Returns the decoded
value and the unread remainder of the stream; `none` models the
`UnexpectedEof` I/O error when the stream ends before a terminator. -/
def readVlqAux : List Nat → Nat → Nat → Option (Nat × List Nat)
  | [], _, _ => none
  | b :: rest, data, shift =>
    let d1 := (data + (b &&& 0x7F) * shift) % 2 ^ 64
    if b &&& 0x80 ≠ 0 then
      some (d1, rest)
    else
      let s1 := (shift <<< 7) % 2 ^ 64
      readVlqAux rest ((d1 + s1) % 2 ^ 64) s1

/-- Model of `ReadExt::read_vlq` (src/src/utils.rs:6-19):
`data = 0`, `shift = 1` initially. -/
def read_vlq (l : List Nat) : Option (Nat × List Nat) :=
  readVlqAux l 0 1

/-- Model of `ReadExt::read_signed_vlq` (src/src/utils.rs:21-30):
decode an unsigned VLQ `d`; the magnitude is `d >>> 1`, negated when the
low bit of `d` is set. -/
def read_signed_vlq (l : List Nat) : Option (Int × List Nat) :=
  match read_vlq l with
  | none => none
  | some (d, rest) =>
    if d &&& 1 ≠ 0 then some (-((d >>> 1 : Nat) : Int), rest)
    else some (((d >>> 1 : Nat) : Int), rest)

/-- Modelled from the spec: the BPS incrementing base-128 unsigned VLQ
encoding (spec section 4.1), the inverse of `read_vlq`.  The final byte
has its high bit set; each continuation step contributes an implicit
extra `shift`. -/
def encode_vlq_spec (n : Nat) : List Nat :=
  if h : n < 128 then [n + 128]
  else (n % 128) :: encode_vlq_spec (n / 128 - 1)
termination_by n
decreasing_by omega

/-- Modelled from the spec: the signed VLQ encoding (spec section 4.1),
`d = (|v| << 1) | sign`, then unsigned-VLQ encoded. -/
def encode_signed_vlq_spec (v : Int) : List Nat :=
  encode_vlq_spec (2 * v.natAbs + (if v < 0 then 1 else 0))

/-- The `usize` cursors in `BpsPatch::patched_rom` are updated by
`(cursor as isize + delta as isize) as usize` (src/src/patch/bps.rs:217
and 227); on 64-bit targets this composite is exactly reduction of the
integer sum modulo `2 ^ 64`. -/
def wrap64 (i : Int) : Nat :=
  (i % (2 ^ 64 : Int)).toNat

/-- The error values of `enum BpsError` (src/src/patch/bps.rs:19-28),
plus `ioError` for propagated `std::io` errors (`?` on reads/seeks).
Note there is no index-out-of-range variant. -/
inductive BpsErr
  | outdatedCache
  | formatMarker
  | sourceLength (expected received : Nat)
  | targetLength (expected received : Nat)
  | sourceChecksum (expected received : Nat)
  | targetChecksum (expected received : Nat)
  | patchChecksum (expected received : Nat)
  | ioError
deriving DecidableEq

/-- Outcome of running `BpsPatch::patched_rom`: a returned buffer, a
returned error value, or a Rust panic (out-of-range slice index,
arithmetic overflow in a debug build, `unwrap` failure). -/
inductive BpsRun
  | ok (target : List Nat)
  | err (e : BpsErr)
  | panicked
deriving DecidableEq

/-- The fields of `struct BpsPatch` used by `patched_rom`
(src/src/patch/bps.rs:70-84); `u64`/`u32` fields as `Nat`. -/
structure BpsPatchData where
  source_size : Nat
  source_checksum : Nat
  target_size : Nat
  target_checksum : Nat
  patch_offset : Nat
  patch_checksum : Nat

/-- The `BpsCommand::TargetCopy` byte-by-byte copy loop
(src/src/patch/bps.rs:229-231): `target[out + i] = target[tr + i]` for
`i` ascending, reading each byte after earlier iterations' writes;
`none` models the panic on an out-of-range index. -/
def targetCopyLoop : List Nat → Nat → Nat → Nat → Option (List Nat)
  | target, _, _, 0 => some target
  | target, tr, out, len + 1 =>
    match target[tr]? with
    | none => none
    | some b =>
      if out < target.length then targetCopyLoop (target.set out b) (tr + 1) (out + 1) len
      else none

/-- The command-dispatch loop of `BpsPatch::patched_rom`
(src/src/patch/bps.rs:190-237).  `source`/`target` are the source ROM
and the target buffer, `stream` the unread command bytes, `out`/`sr`/`tr`
the `output_offset`/`source_relative_offset`/`target_relative_offset`
cursors.  Out-of-range slice expressions panic; `read_exact`/VLQ reads
past the end of the stream are I/O errors.  The `TryFromPrimitive`
conversion of `data & 3` cannot fail (two-bit mask, four variants).
The `while position < len` loop is driven by a structural `fuel`
counter; since every iteration consumes at least one stream byte and
callers pass `stream.length + 1`, the zero-fuel branch is never
reached. -/
def bpsLoop (source : List Nat) : Nat → List Nat → List Nat → Nat → Nat → Nat → BpsRun
  | 0, _, _, _, _, _ => BpsRun.err BpsErr.ioError
  | fuel + 1, target, stream, out, sr, tr =>
    if stream.isEmpty then BpsRun.ok target
    else
      match read_vlq stream with
      | none => BpsRun.err BpsErr.ioError
      | some (data, rest) =>
        let len := (data >>> 2) + 1
        match data &&& 3 with
        | 0 =>
          if out + len ≤ target.length ∧ out + len ≤ source.length then
            bpsLoop source fuel (writeSlice target out ((source.drop out).take len)) rest (out + len) sr tr
          else BpsRun.panicked
        | 1 =>
          if out + len ≤ target.length then
            if len ≤ rest.length then
              bpsLoop source fuel (writeSlice target out (rest.take len)) (rest.drop len) (out + len) sr tr
            else BpsRun.err BpsErr.ioError
          else BpsRun.panicked
        | 2 =>
          match read_signed_vlq rest with
          | none => BpsRun.err BpsErr.ioError
          | some (off, rest2) =>
            let sr2 := wrap64 ((sr : Int) + off)
            if out + len ≤ target.length ∧ sr2 + len ≤ source.length then
              bpsLoop source fuel (writeSlice target out ((source.drop sr2).take len)) rest2 (out + len) (sr2 + len) tr
            else BpsRun.panicked
        | 3 =>
          match read_signed_vlq rest with
          | none => BpsRun.err BpsErr.ioError
          | some (off, rest2) =>
            let tr2 := wrap64 ((tr : Int) + off)
            match targetCopyLoop target tr2 out len with
            | none => BpsRun.panicked
            | some target2 => bpsLoop source fuel target2 rest2 (out + len) sr (tr2 + len)
        | _ => BpsRun.err BpsErr.ioError

/-- Model of `BpsPatch::patched_rom` (src/src/patch/bps.rs:143-255).
`patch_data` and `source` are the full contents of the patch file and of
the bound source ROM (their `File::open`/`fs::read` assumed successful,
the bound source path present); `outdated` is whether the patch file's
modification time differs from the recorded one.  Underflowing
`usize` subtractions and out-of-range slice starts panic, exactly as the
corresponding Rust slice expressions do. -/
def bps_patched_rom (p : BpsPatchData) (patch_data source : List Nat) (outdated : Bool) : BpsRun :=
  if outdated then BpsRun.err BpsErr.outdatedCache
  else if patch_data.length < 4 then BpsRun.panicked
  else
    let pcrc := crc32 (patch_data.take (patch_data.length - 4))
    if pcrc ≠ p.patch_checksum then BpsRun.err (BpsErr.patchChecksum p.patch_checksum pcrc)
    else if patch_data.length < 12 ∨ patch_data.length - 12 < p.patch_offset then BpsRun.panicked
    else
      let stream := (patch_data.take (patch_data.length - 12)).drop p.patch_offset
      if source.length ≠ p.source_size then
        BpsRun.err (BpsErr.sourceLength p.source_size source.length)
      else
        let scrc := crc32 source
        if scrc ≠ p.source_checksum then BpsRun.err (BpsErr.sourceChecksum p.source_checksum scrc)
        else
          match bpsLoop source (stream.length + 1) (List.replicate p.target_size 0) stream 0 0 0 with
          | BpsRun.ok target =>
            if target.length ≠ p.target_size then
              BpsRun.err (BpsErr.targetLength p.target_size target.length)
            else
              let tcrc := crc32 target
              if tcrc ≠ p.target_checksum then
                BpsRun.err (BpsErr.targetChecksum p.target_checksum tcrc)
              else BpsRun.ok target
          | r => r

/-- A malformed patch whose single `SourceCopy` command carries a signed
VLQ delta of minus one from the initial zero `source_relative_offset`:
command VLQ `0x82` (`op = 2`, `length = 1`) then signed VLQ `0x83`
(magnitude 1, negative), followed by a 12-byte footer region. -/
def c2PatchData : List Nat :=
  [0x82, 0x83] ++ List.replicate 12 0

/-- Parsed-header fields matching `c2PatchData` with an empty source ROM
and declared target size 1. -/
def c2Patch : BpsPatchData :=
  { source_size := 0
    source_checksum := crc32 []
    target_size := 1
    target_checksum := 0
    patch_offset := 0
    patch_checksum := crc32 (c2PatchData.take (c2PatchData.length - 4)) }

/-- A patch whose single `TargetRead` command writes one byte `0xAB`
while the declared target size is 2: command VLQ `0x81` (`op = 1`,
`length = 1`) then the literal byte, followed by a 12-byte footer
region. -/
def c3PatchData : List Nat :=
  [0x81, 0xAB] ++ List.replicate 12 0

/-- Parsed-header fields matching `c3PatchData`: empty source, declared
target size 2, and the declared target digest is the CRC-32 of the
half-written, zero-padded buffer `[0xAB, 0]`. -/
def c3Patch : BpsPatchData :=
  { source_size := 0
    source_checksum := crc32 []
    target_size := 2
    target_checksum := crc32 [0xAB, 0]
    patch_offset := 0
    patch_checksum := crc32 (c3PatchData.take (c3PatchData.length - 4)) }

/-- Model of `byteorder`'s `read_u24::<BigEndian>` on a byte stream:
`none` models the I/O error when fewer than three bytes remain. -/
def readU24BE (l : List Nat) : Option (Nat × List Nat) :=
  match l with
  | b0 :: b1 :: b2 :: rest => some (b0 * 65536 + b1 * 256 + b2, rest)
  | _ => none

/-- The fields of `struct IpsPatch` computed by parsing
(src/src/patch/ips.rs:30-36): the computed extent `target_size` and the
optional trailing truncation override. -/
structure IpsPatchM where
  target_size : Nat
  truncated_size : Option Nat
deriving DecidableEq

/-- The record-scanning loop of `IpsPatch::new`
(src/src/patch/ips.rs:53-68): reads 24-bit big-endian offsets until the
`EOF` marker `0x454F46`, accumulating
`target_size = max(target_size, offset + record_len)`; for an RLE record
(`size == 0`) the length is the 16-bit `rle_size`, otherwise the data
record's `size` bytes are skipped (`seek` past the end of the file
succeeds, so a short skip surfaces as an EOF error on the next read).
Returns the accumulated size and the bytes following the marker.
Driven by structural `fuel`; every iteration consumes at least three
bytes and callers pass `l.length + 1`, so zero fuel is unreachable. -/
def ipsParseLoop : Nat → List Nat → Nat → Option (Nat × List Nat)
  | 0, _, _ => none
  | fuel + 1, b0 :: b1 :: b2 :: rest, ts =>
    let offset := b0 * 65536 + b1 * 256 + b2
    if offset = 0x454F46 then some (ts, rest)
    else
      match rest with
      | s0 :: s1 :: rest2 =>
        let size := s0 * 256 + s1
        if size = 0 then
          match rest2 with
          | r0 :: r1 :: _v :: rest3 =>
            ipsParseLoop fuel rest3 (max ts (offset + (r0 * 256 + r1)))
          | _ => none
        else ipsParseLoop fuel (rest2.drop size) (max ts (offset + size))
      | _ => none
  | _ + 1, _, _ => none

/-- An IPS record as the spec describes it: an offset plus a record
length (`rle_size` for an RLE record, `size` for a data record). -/
structure IpsRecord where
  offset : Nat
  record_len : Nat
deriving DecidableEq

/-- Modelled from the spec: the IPS record stream as a list of records
(spec sections 4.3.1 and 6), read until the `EOF` marker, returning the
records and the bytes following the marker.  This is the spec-side view
against which the accumulator loop `ipsParseLoop` is compared.  Same
fuel discipline as `ipsParseLoop`. -/
def ipsRecordsLoop : Nat → List Nat → Option (List IpsRecord × List Nat)
  | 0, _ => none
  | fuel + 1, b0 :: b1 :: b2 :: rest =>
    let offset := b0 * 65536 + b1 * 256 + b2
    if offset = 0x454F46 then some ([], rest)
    else
      match rest with
      | s0 :: s1 :: rest2 =>
        let size := s0 * 256 + s1
        if size = 0 then
          match rest2 with
          | r0 :: r1 :: _v :: rest3 =>
            match ipsRecordsLoop fuel rest3 with
            | some (recs, rem) => some ({ offset := offset, record_len := r0 * 256 + r1 } :: recs, rem)
            | none => none
          | _ => none
        else
          match ipsRecordsLoop fuel (rest2.drop size) with
          | some (recs, rem) => some ({ offset := offset, record_len := size } :: recs, rem)
          | none => none
      | _ => none
  | _ + 1, _ => none

/-- The spec-side record parse of a full IPS byte stream after the
5-byte `PATCH` marker, with sufficient fuel. -/
def ips_records (l : List Nat) : Option (List IpsRecord × List Nat) :=
  ipsRecordsLoop (l.length + 1) l

/-- Model of `IpsPatch::new` (src/src/patch/ips.rs:39-78).  `patch` is
the patch file's contents, `source_len` the source ROM's byte length
(`metadata().len()`).  Requires the `PATCH` marker, scans the records
accumulating the extent, then attempts one further 24-bit big-endian
read as the truncation override (`.ok()` — absent if incomplete). -/
def ips_new (patch : List Nat) (source_len : Nat) : Option IpsPatchM :=
  match patch with
  | 0x50 :: 0x41 :: 0x54 :: 0x43 :: 0x48 :: rest =>
    match ipsParseLoop (rest.length + 1) rest source_len with
    | some (ts, rest2) =>
      some { target_size := ts, truncated_size := Option.map (fun p => p.1) (readU24BE rest2) }
    | none => none
  | _ => none

/-- Model of `IpsPatch::target_size` (src/src/patch/ips.rs:82-84):
`self.truncated_size.unwrap_or(self.target_size)`. -/
def ips_target_size (p : IpsPatchM) : Nat :=
  p.truncated_size.getD p.target_size

/-- The record-application loop of `IpsPatch::patched_rom`
(src/src/patch/ips.rs:98-112), over the bytes after the `PATCH` marker
and the resized target buffer: RLE records `fill` the range with the
value, data records `read_exact` from the stream into the range; an
out-of-range slice panics (`none`), a short stream is an I/O error
(also `none` — `Option` does not distinguish the two here, and no claim
about this loop needs to).  Same fuel discipline as `ipsParseLoop`. -/
def ipsApplyLoop : Nat → List Nat → List Nat → Option (List Nat)
  | 0, _, _ => none
  | fuel + 1, b0 :: b1 :: b2 :: rest, target =>
    let offset := b0 * 65536 + b1 * 256 + b2
    if offset = 0x454F46 then some target
    else
      match rest with
      | s0 :: s1 :: rest2 =>
        let size := s0 * 256 + s1
        if size = 0 then
          match rest2 with
          | r0 :: r1 :: v :: rest3 =>
            let rle_size := r0 * 256 + r1
            if offset + rle_size ≤ target.length then
              ipsApplyLoop fuel rest3 (listFill target offset rle_size v)
            else none
          | _ => none
        else
          if offset + size ≤ target.length ∧ size ≤ rest2.length then
            ipsApplyLoop fuel (rest2.drop size) (writeSlice target offset (rest2.take size))
          else none
      | _ => none
  | _ + 1, _, _ => none

/-- Model of `IpsPatch::patched_rom` (src/src/patch/ips.rs:86-119).
`source` is the source ROM's contents (`fs::read` assumed successful).
The source is resized (zero-padded) to the computed extent, the records
are re-parsed and applied, and finally, if a truncation override is
set, the buffer is resized to it (`Vec::resize(n, 0)` — shrinking or
zero-padded growing). -/
def ips_patched_rom (p : IpsPatchM) (patch source : List Nat) : Option (List Nat) :=
  match patch with
  | 0x50 :: 0x41 :: 0x54 :: 0x43 :: 0x48 :: rest =>
    match ipsApplyLoop (rest.length + 1) rest (listResize source p.target_size) with
    | some target =>
      some (match p.truncated_size with
        | some t => listResize target t
        | none => target)
    | none => none
  | _ => none

/-- The `fuse_mt::FileAttr` a handle stores.  In the source every field
except `size` is a constant (epoch timestamps, `perm = 0o444`,
`nlink = 1`, process uid/gid — src/src/rom_filesystem.rs:53-88), so only
`size` is modelled. -/
structure FileAttrM where
  size : Nat
deriving DecidableEq

/-- The `Arc<dyn Patch + Send + Sync>` capability a `FileHandle`
captures: its `target_size()` and the outcome its `patched_rom()` would
produce (`none` models an `Err` return). -/
structure PatchCapM where
  target_size : Nat
  patched_rom : Option (List Nat)
deriving DecidableEq

/-- The `enum Handle` of the filesystem adapter
(src/src/rom_filesystem.rs:27-36): a directory handle, or a file handle
with its captured patch and the optional materialised buffer. -/
inductive HandleM
  | directory (attr : FileAttrM)
  | file (attr : FileAttrM) (patch : PatchCapM) (data : Option (List Nat))
deriving DecidableEq

/-- `libc::ENOENT`. -/
def ENOENT : Int := 2

/-- What `RomFilesystem::read` passes to its result sink: a byte slice,
an errno, or — if the thread panics before calling the sink — neither. -/
inductive FsReadResult
  | ok (bytes : List Nat)
  | errno (e : Int)
  | panicked
deriving DecidableEq

/-- `HashMap::insert` of a fresh value for key `fh` into the handle
table, modelled on an association list (later insertions shadow). -/
def storeHandle (handles : List (Nat × HandleM)) (fh : Nat) (h : HandleM) : List (Nat × HandleM) :=
  handles.map (fun e => if e.1 = fh then (fh, h) else e)

/-- `HashMap::remove` of key `fh` from the handle table. -/
def removeHandle (handles : List (Nat × HandleM)) (fh : Nat) : List (Nat × HandleM) :=
  handles.filter (fun e => e.1 ≠ fh)

/-- The slice served by `RomFilesystem::read` once a buffer is present
(src/src/rom_filesystem.rs:226-233): empty past the end, otherwise
`data[offset .. offset + min(size, data.len() - offset)]`. -/
def serveRead (bytes : List Nat) (offset size : Nat) : FsReadResult :=
  if offset > bytes.length then FsReadResult.ok []
  else FsReadResult.ok ((bytes.drop offset).take (min size (bytes.length - offset)))

/-- Model of `RomFilesystem::read` (src/src/rom_filesystem.rs:209-240):
on a file handle, materialise on first read — note the
`patch.patched_rom().unwrap()`, which panics when materialisation
fails — store the buffer back, and serve the requested slice; on an
unknown handle or a directory handle, `ENOENT`.  Returns the outcome
and the handle table afterwards. -/
def fs_read (handles : List (Nat × HandleM)) (fh : Nat) (offset size : Nat) :
    FsReadResult × List (Nat × HandleM) :=
  match List.lookup fh handles with
  | some (HandleM.file attr patch data) =>
    match data with
    | none =>
      match patch.patched_rom with
      | none => (FsReadResult.panicked, handles)
      | some bytes =>
        (serveRead bytes offset size, storeHandle handles fh (HandleM.file attr patch (some bytes)))
    | some bytes => (serveRead bytes offset size, handles)
  | _ => (FsReadResult.errno ENOENT, handles)

/-- Model of `RomFilesystem::release` (src/src/rom_filesystem.rs:242-259):
remove the handle only when it is a `File` handle, else `ENOENT`. -/
def fs_release (handles : List (Nat × HandleM)) (fh : Nat) :
    Except Int Unit × List (Nat × HandleM) :=
  match List.lookup fh handles with
  | some (HandleM.file _ _ _) => (Except.ok (), removeHandle handles fh)
  | _ => (Except.error ENOENT, handles)

/-- Model of `RomFilesystem::releasedir` (src/src/rom_filesystem.rs:146-155):
remove the handle only when it is a `Directory` handle, else `ENOENT`. -/
def fs_releasedir (handles : List (Nat × HandleM)) (fh : Nat) :
    Except Int Unit × List (Nat × HandleM) :=
  match List.lookup fh handles with
  | some (HandleM.directory _) => (Except.ok (), removeHandle handles fh)
  | _ => (Except.error ENOENT, handles)

/-- A directory entry as `RomManager::refresh` observes it: its path,
the value of `Path::extension().unwrap_or_default()` as a string,
whether it is a directory, and the outcome of `fs::read` on it
(`none` models an I/O error). -/
structure DirEntryM where
  path : String
  ext : String
  is_dir : Bool
  content : Option (List Nat)
deriving DecidableEq

/-- `ROM_EXTENSIONS` (src/src/rom_manager.rs:14-28). -/
def ROM_EXTENSIONS : List String :=
  ["bin", "rom", "crt",
   "nes", "fds",
   "sfc", "smc",
   "vb",
   "n64", "v64", "z64",
   "gb",
   "gbc",
   "gba", "agb",
   "nds",
   "3ds"]

/-- Model of `extension_matches` (src/src/rom_manager.rs:52-59):
case-insensitive membership of the (already extracted) extension.  The
source lowercases with `str::to_ascii_lowercase`, which is exactly a
character-wise ASCII lowering, modelled here on the character list. -/
def extension_matches (ext : String) (exts : List String) : Bool :=
  exts.contains ⟨ext.data.map Char.toLower⟩

/-- The diagnostics `refresh` emits on `eprintln!`
(src/src/rom_manager.rs:48, 72, 86-90, 94, 101-104, 115). -/
inductive RefreshDiag
  | refreshing
  | noSourceRoms
  | noSourceRomFor (path : String)
  | failedToLoadBps (path : String)
  | multipleSourceRoms (path : String)
  | failedToLoadIps (path : String)
deriving DecidableEq

/-- A published patch object (`Arc<dyn Patch>` in `target_roms`). -/
inductive PatchObjM
  | bps (p : BpsPatchData)
  | ips (p : IpsPatchM)

/-- The state `refresh` leaves behind: both maps (association lists,
most recent insertion first) and the emitted diagnostics in order. -/
structure RefreshOut where
  source_roms : List (Nat × DirEntryM)
  target_roms : List (String × PatchObjM)
  diags : List RefreshDiag

/-- `HashMap::insert` on an association list: the new binding shadows
any previous binding of the key (last insertion wins). -/
def insertAssoc {α β : Type} [DecidableEq α] (m : List (α × β)) (k : α) (v : β) : List (α × β) :=
  (k, v) :: m.filter (fun e => e.1 ≠ k)

/-- The source-ROM scan of `refresh` (src/src/rom_manager.rs:66-69):
CRC-32 each candidate's contents (`fs::read(..)?` propagates I/O
errors) and insert `digest → entry`. -/
def scanSourceRoms (entries : List DirEntryM) : Except Unit (List (Nat × DirEntryM)) :=
  entries.foldlM (fun m e =>
    match e.content with
    | none => Except.error ()
    | some bytes => Except.ok (insertAssoc m (crc32 bytes) e)) []

/-- Model of `RomManager::refresh` (src/src/rom_manager.rs:47-125).
Filesystem- and path-level collaborators are passed in: `setExt`
models "strip the base directory and replace the extension by the
source's" (`Path::set_extension`), `loadBps` models `BpsPatch::new` on
a patch file, `loadIps` models `IpsPatch::new` on a patch file and a
source entry.  Both maps are rebuilt from scratch (the source clears
them first); if no source ROMs were found the scan stops after the
`noSourceRoms` diagnostic with an empty `target_roms`, returning
success. -/
def refresh (setExt : String → String → String)
    (loadBps : DirEntryM → Except Unit BpsPatchData)
    (loadIps : DirEntryM → DirEntryM → Except Unit IpsPatchM)
    (entries : List DirEntryM) : Except Unit RefreshOut :=
  let files := entries.filter (fun e => !e.is_dir)
  match scanSourceRoms (files.filter (fun e => extension_matches e.ext ROM_EXTENSIONS)) with
  | Except.error e => Except.error e
  | Except.ok source_roms =>
    if source_roms.isEmpty then
      Except.ok { source_roms := source_roms, target_roms := [],
                  diags := [RefreshDiag.refreshing, RefreshDiag.noSourceRoms] }
    else
      let st1 := (files.filter (fun e => extension_matches e.ext ["bps"])).foldl (fun st e =>
        match loadBps e with
        | Except.ok patch =>
          match List.lookup patch.source_checksum source_roms with
          | some src => (insertAssoc st.1 (setExt e.path src.ext) (PatchObjM.bps patch), st.2)
          | none => (st.1, st.2 ++ [RefreshDiag.noSourceRomFor e.path])
        | Except.error _ => (st.1, st.2 ++ [RefreshDiag.failedToLoadBps e.path]))
        (([] : List (String × PatchObjM)), ([] : List RefreshDiag))
      let st2 := (files.filter (fun e => extension_matches e.ext ["ips"])).foldl (fun st e =>
        if source_roms.length > 1 then (st.1, st.2 ++ [RefreshDiag.multipleSourceRoms e.path])
        else
          match source_roms.head? with
          | none => st
          | some (_, src) =>
            match loadIps e src with
            | Except.ok patch => (insertAssoc st.1 (setExt e.path src.ext) (PatchObjM.ips patch), st.2)
            | Except.error _ => (st.1, st.2 ++ [RefreshDiag.failedToLoadIps e.path])) st1
      Except.ok { source_roms := source_roms, target_roms := st2.1,
                  diags := RefreshDiag.refreshing :: st2.2 }

/-- C1: the claim says a failed materialisation inside `read` surfaces
`EIO` as an error result.  The code instead calls
`patch.patched_rom().unwrap()` (src/src/rom_filesystem.rs:223), so on a
file handle whose first read fails to materialise, the thread panics —
no errno is returned through the sink and the handle table is left as
it was. -/
theorem read_panics_when_materialisation_fails :
    fs_read [(1, HandleM.file ⟨4⟩ ⟨4, none⟩ none)] 1 0 4096 =
      (FsReadResult.panicked, [(1, HandleM.file ⟨4⟩ ⟨4, none⟩ none)]) := by
  decide

/-- C2: the claim says malformed BPS patches produce an
`IndexOutOfRange` error value and that cursor arithmetic is unsigned
64-bit.  The code has no such error variant, does the cursor update in
`isize` with wrapping casts (src/src/patch/bps.rs:217), and indexes the
source slice with the wrapped cursor, which panics.  Concretely, a
patch whose single `SourceCopy` carries delta −1 from the initial zero
`source_relative_offset` makes `patched_rom` panic rather than return
an error. -/
theorem bps_negative_cursor_panics :
    bps_patched_rom c2Patch c2PatchData [] false = BpsRun.panicked := by
  decide

/-- C3: the claim says `patched_rom` fails with a length mismatch
whenever the command stream wrote fewer or more bytes than
`target_size`.  The post-loop check (src/src/patch/bps.rs:239) compares
`target.len()` — which is always exactly `target_size`, since the
buffer is allocated at that length and only sliced into — not the
`output_offset` cursor.  Concretely, a patch whose commands write a
single byte into a declared target of size 2 passes the length check
and is returned successfully (zero padded), with no `TargetLength`
error. -/
theorem bps_underwrite_passes_length_check :
    bps_patched_rom c3Patch c3PatchData [] false = BpsRun.ok [0xAB, 0] := by
  decide

/-- C6: for every open file handle whose buffer has been materialised,
`read` returns exactly `buffer[offset .. min(offset + size, buffer.len())]`
and leaves the handle table unchanged; an offset at or past the end
yields the empty slice, not an error. -/
theorem fs_read_serves_exact_slice
    (handles : List (Nat × HandleM)) (fh : Nat) (attr : FileAttrM) (patch : PatchCapM)
    (buf : List Nat) (offset size : Nat)
    (h : List.lookup fh handles = some (HandleM.file attr patch (some buf))) :
    fs_read handles fh offset size =
      (FsReadResult.ok ((buf.take (min (offset + size) buf.length)).drop offset), handles) ∧
    (buf.length ≤ offset → (buf.take (min (offset + size) buf.length)).drop offset = []) := by
  have hempty : buf.length ≤ offset → (buf.take (min (offset + size) buf.length)).drop offset = [] := by
    intro ho
    apply List.drop_eq_nil_of_le
    simp only [List.length_take]
    omega
  refine ⟨?_, hempty⟩
  unfold fs_read
  rw [h]
  show (serveRead buf offset size, handles) = _
  unfold serveRead
  by_cases ho : offset > buf.length
  · rw [if_pos ho, hempty (by omega)]
  · rw [if_neg ho]
    rw [List.drop_take]
    have harith : min (offset + size) buf.length - offset = min size (buf.length - offset) := by
      omega
    rw [harith]

/-- C6 witness: a concrete materialised handle, `offset = 1`,
`size = 2`. -/
theorem fs_read_serves_exact_slice_witness :
    fs_read [(1, HandleM.file ⟨4⟩ ⟨4, some [1, 2, 3, 4]⟩ (some [1, 2, 3, 4]))] 1 1 2 =
      (FsReadResult.ok (([1, 2, 3, 4].take (min (1 + 2) [1, 2, 3, 4].length)).drop 1),
        [(1, HandleM.file ⟨4⟩ ⟨4, some [1, 2, 3, 4]⟩ (some [1, 2, 3, 4]))]) :=
  (fs_read_serves_exact_slice [(1, HandleM.file ⟨4⟩ ⟨4, some [1, 2, 3, 4]⟩ (some [1, 2, 3, 4]))]
    1 ⟨4⟩ ⟨4, some [1, 2, 3, 4]⟩ [1, 2, 3, 4] 1 2 rfl).1

/-- C10: an operation hitting a handle of the wrong kind — `release` or
`read` on a directory handle, `releasedir` on a file handle — fails with
`ENOENT` and leaves the handle table unchanged. -/
theorem wrong_kind_handle_enoent_table_unchanged
    (handles : List (Nat × HandleM)) (fh : Nat) :
    (∀ attr, List.lookup fh handles = some (HandleM.directory attr) →
      fs_release handles fh = (Except.error ENOENT, handles) ∧
      ∀ offset size, fs_read handles fh offset size = (FsReadResult.errno ENOENT, handles)) ∧
    (∀ attr patch data, List.lookup fh handles = some (HandleM.file attr patch data) →
      fs_releasedir handles fh = (Except.error ENOENT, handles)) := by
  constructor
  · intro attr h
    constructor
    · unfold fs_release
      rw [h]
    · intro offset size
      unfold fs_read
      rw [h]
  · intro attr patch data h
    unfold fs_releasedir
    rw [h]

/-- C10 witness: a table holding one directory handle and one file
handle, probed with each mismatched operation. -/
theorem wrong_kind_handle_enoent_table_unchanged_witness :
    (fs_release [(1, HandleM.directory ⟨0⟩), (2, HandleM.file ⟨4⟩ ⟨4, none⟩ none)] 1 =
        (Except.error ENOENT, [(1, HandleM.directory ⟨0⟩), (2, HandleM.file ⟨4⟩ ⟨4, none⟩ none)]) ∧
      fs_read [(1, HandleM.directory ⟨0⟩), (2, HandleM.file ⟨4⟩ ⟨4, none⟩ none)] 1 0 4096 =
        (FsReadResult.errno ENOENT,
          [(1, HandleM.directory ⟨0⟩), (2, HandleM.file ⟨4⟩ ⟨4, none⟩ none)])) ∧
    fs_releasedir [(1, HandleM.directory ⟨0⟩), (2, HandleM.file ⟨4⟩ ⟨4, none⟩ none)] 2 =
      (Except.error ENOENT, [(1, HandleM.directory ⟨0⟩), (2, HandleM.file ⟨4⟩ ⟨4, none⟩ none)]) := by
  constructor
  · have h := (wrong_kind_handle_enoent_table_unchanged
      [(1, HandleM.directory ⟨0⟩), (2, HandleM.file ⟨4⟩ ⟨4, none⟩ none)] 1).1 ⟨0⟩ rfl
    exact ⟨h.1, h.2 0 4096⟩
  · exact (wrong_kind_handle_enoent_table_unchanged
      [(1, HandleM.directory ⟨0⟩), (2, HandleM.file ⟨4⟩ ⟨4, none⟩ none)] 2).2 ⟨4⟩ ⟨4, none⟩ none rfl

theorem and_127_eq_mod (x : Nat) : x &&& 127 = x % 128 := by
  have h := Nat.and_pow_two_sub_one_eq_mod x 7
  norm_num at h
  exact h

theorem and_128_ne_zero {x : Nat} (h1 : 128 ≤ x) (h2 : x < 256) : x &&& 128 ≠ 0 := by
  have h := Nat.and_two_pow x 7
  norm_num at h
  have ht : x.testBit 7 = true := by
    rw [Nat.testBit_to_div_mod]
    norm_num
    omega
  rw [h, ht]
  simp

theorem and_128_eq_zero {x : Nat} (h1 : x < 128) : x &&& 128 = 0 := by
  have h := Nat.and_two_pow x 7
  norm_num at h
  have ht : x.testBit 7 = false := Nat.testBit_lt_two_pow (by norm_num; omega)
  rw [h, ht]
  simp

/-- Round trip of the unsigned VLQ reader against the spec-side encoder,
generalised over the `data`/`shift` accumulators.  The side conditions
keep every intermediate value below `2 ^ 64`, so the `u64` reductions
are the identity. -/
theorem readVlqAux_encode :
    ∀ (n d s : Nat) (rest : List Nat), 0 < s → d + n * s < 2 ^ 64 →
      readVlqAux (encode_vlq_spec n ++ rest) d s = some (d + n * s, rest) := by
  intro n
  induction n using Nat.strong_induction_on with
  | _ n ih =>
    intro d s rest hs hlt
    by_cases h : n < 128
    · rw [encode_vlq_spec, dif_pos h]
      show readVlqAux ((n + 128) :: rest) d s = some (d + n * s, rest)
      simp only [readVlqAux]
      rw [and_127_eq_mod]
      rw [if_pos (and_128_ne_zero (by omega) (by omega))]
      have h1 : (n + 128) % 128 = n := by omega
      rw [h1, Nat.mod_eq_of_lt hlt]
    · rw [encode_vlq_spec, dif_neg h]
      show readVlqAux ((n % 128) :: (encode_vlq_spec (n / 128 - 1) ++ rest)) d s =
        some (d + n * s, rest)
      simp only [readVlqAux]
      rw [and_127_eq_mod]
      rw [if_neg (by simp [and_128_eq_zero (show n % 128 < 128 by omega)])]
      have hmod : n % 128 % 128 = n % 128 := by omega
      rw [hmod, Nat.shiftLeft_eq]
      have h27 : (2 : Nat) ^ 7 = 128 := by norm_num
      rw [h27]
      have hsum : n % 128 * s + 128 * s ≤ n * s := by
        have hle : n % 128 + 128 ≤ n := by omega
        calc n % 128 * s + 128 * s = (n % 128 + 128) * s := by ring
          _ ≤ n * s := Nat.mul_le_mul_right s hle
      have hd1 : (d + n % 128 * s) % 2 ^ 64 = d + n % 128 * s :=
        Nat.mod_eq_of_lt (by omega)
      have hs1 : s * 128 % 2 ^ 64 = s * 128 := Nat.mod_eq_of_lt (by omega)
      rw [hd1, hs1]
      have hd2 : (d + n % 128 * s + s * 128) % 2 ^ 64 = d + n % 128 * s + s * 128 :=
        Nat.mod_eq_of_lt (by omega)
      rw [hd2]
      have hkey : d + n % 128 * s + s * 128 + (n / 128 - 1) * (s * 128) = d + n * s := by
        have h2 : n = 128 * (n / 128) + n % 128 := (Nat.div_add_mod n 128).symm
        obtain ⟨q, hq⟩ : ∃ q, n / 128 = q + 1 := ⟨n / 128 - 1, by omega⟩
        rw [hq] at h2
        rw [hq]
        simp only [Nat.add_sub_cancel]
        calc d + n % 128 * s + s * 128 + q * (s * 128)
            = d + (128 * (q + 1) + n % 128) * s := by ring
          _ = d + n * s := by rw [← h2]
      have hrec := ih (n / 128 - 1) (by omega) (d + n % 128 * s + s * 128) (s * 128) rest
        (by omega) (by omega)
      rw [hkey] at hrec
      exact hrec

/-- Round trip of `read_vlq` against the spec-side encoder. -/
theorem read_vlq_encode (n : Nat) (rest : List Nat) (h : n < 2 ^ 64) :
    read_vlq (encode_vlq_spec n ++ rest) = some (n, rest) := by
  have := readVlqAux_encode n 0 1 rest (by omega) (by omega)
  simpa using this

/-- C7: `read_signed_vlq` returns magnitude `d >>> 1`, negated exactly
when the decoded unsigned VLQ `d` has its low bit set; consequently,
for every `v ∈ [−2^62, 2^62)`, decoding the spec's signed-VLQ encoding
of `v` yields `v` back. -/
theorem signed_vlq_decode_roundtrip :
    (∀ (l : List Nat) (d : Nat) (r : List Nat), read_vlq l = some (d, r) →
      read_signed_vlq l =
        some (if d &&& 1 ≠ 0 then -((d >>> 1 : Nat) : Int) else ((d >>> 1 : Nat) : Int), r)) ∧
    (∀ v : Int, -(2 ^ 62) ≤ v → v < 2 ^ 62 → ∀ rest : List Nat,
      read_signed_vlq (encode_signed_vlq_spec v ++ rest) = some (v, rest)) := by
  have hshape : ∀ (l : List Nat) (d : Nat) (r : List Nat), read_vlq l = some (d, r) →
      read_signed_vlq l =
        some (if d &&& 1 ≠ 0 then -((d >>> 1 : Nat) : Int) else ((d >>> 1 : Nat) : Int), r) := by
    intro l d r h
    unfold read_signed_vlq
    rw [h]
    by_cases hd : d % 2 = 1 <;> simp [Nat.and_one_is_mod, hd]
  refine ⟨hshape, ?_⟩
  intro v h1 h2 rest
  unfold encode_signed_vlq_spec
  have habs : v.natAbs ≤ 2 ^ 62 := by omega
  by_cases hv : v < 0
  · rw [if_pos hv]
    have hb : 2 * v.natAbs + 1 < 2 ^ 64 := by omega
    rw [hshape _ _ _ (read_vlq_encode _ rest hb)]
    have hodd : (2 * v.natAbs + 1) &&& 1 = 1 := by
      rw [Nat.and_one_is_mod]
      omega
    rw [if_pos (by rw [hodd]; omega)]
    have hshift : (2 * v.natAbs + 1) >>> 1 = v.natAbs := by
      rw [Nat.shiftRight_eq_div_pow]
      have h21 : (2 : Nat) ^ 1 = 2 := by norm_num
      rw [h21]
      omega
    rw [hshift]
    have hcast : ((v.natAbs : Nat) : Int) = -v := by omega
    rw [hcast, neg_neg]
  · rw [if_neg hv]
    have hb : 2 * v.natAbs + 0 < 2 ^ 64 := by omega
    rw [hshape _ _ _ (read_vlq_encode _ rest hb)]
    have heven : (2 * v.natAbs + 0) &&& 1 = 0 := by
      rw [Nat.and_one_is_mod]
      omega
    rw [if_neg (by simp [heven])]
    have hshift : (2 * v.natAbs + 0) >>> 1 = v.natAbs := by
      rw [Nat.shiftRight_eq_div_pow]
      have h21 : (2 : Nat) ^ 1 = 2 := by norm_num
      rw [h21]
      omega
    rw [hshift]
    have hcast : ((v.natAbs : Nat) : Int) = v := by omega
    rw [hcast]

/-- C7 witness: `v = -3` encodes to the single byte `0x87` and decodes
back to `-3`. -/
theorem signed_vlq_decode_roundtrip_witness :
    read_signed_vlq (encode_signed_vlq_spec (-3) ++ []) = some (-3, []) :=
  signed_vlq_decode_roundtrip.2 (-3) (by decide) (by decide) []

/-- C4: the `TargetCopy` byte-by-byte ascending copy, started with
`target_rel = output - 1`, fills the next `length` output positions
with copies of the byte just written at `output - 1` — the RLE-style
self-referential copy, stated as a closed form: the result is the
prefix before `output`, then `length` copies of that byte, then the
untouched tail. -/
theorem target_copy_rle_fill (len : Nat) :
    ∀ (t : List Nat) (out b : Nat), 0 < out → out + len ≤ t.length →
      t[out - 1]? = some b →
      targetCopyLoop t (out - 1) out len =
        some (t.take out ++ List.replicate len b ++ t.drop (out + len)) := by
  induction len with
  | zero =>
    intro t out b h1 h2 h3
    simp [targetCopyLoop, List.take_append_drop]
  | succ len ih =>
    intro t out b h1 h2 h3
    have hlt : out < t.length := by omega
    simp only [targetCopyLoop, h3]
    rw [if_pos hlt]
    have hsucc : out + 1 - 1 = out := by omega
    have hrec := ih (t.set out b) (out + 1) b (by omega)
      (by simp only [List.length_set]; omega)
      (by rw [hsucc]; exact List.getElem?_set_self hlt)
    rw [hsucc] at hrec
    have htr : out - 1 + 1 = out := by omega
    rw [htr, hrec]
    have hset : t.set out b = t.take out ++ b :: t.drop (out + 1) := by
      rw [List.set_eq_take_append_cons_drop, if_pos hlt]
    have htakelen : (t.take out).length = out := List.length_take_of_le (by omega)
    have htake : (t.set out b).take (out + 1) = t.take out ++ [b] := by
      rw [hset]
      calc (t.take out ++ b :: t.drop (out + 1)).take (out + 1)
          = (t.take out ++ b :: t.drop (out + 1)).take ((t.take out).length + 1) := by
            rw [htakelen]
        _ = t.take out ++ (b :: t.drop (out + 1)).take 1 := List.take_append 1
        _ = t.take out ++ [b] := by simp
    have hdrop : (t.set out b).drop (out + 1 + len) = t.drop (out + 1 + len) :=
      List.drop_set_of_lt b t (by omega)
    rw [htake, hdrop]
    have harith : out + 1 + len = out + (len + 1) := by omega
    rw [harith]
    simp [List.replicate_succ]

/-- C4 witness: one byte `7` written at position `0`, then a
`TargetCopy` of length `2` with `target_rel = output - 1 = 0`. -/
theorem target_copy_rle_fill_witness :
    targetCopyLoop [7, 0, 0] (1 - 1) 1 2 =
      some ([7, 0, 0].take 1 ++ List.replicate 2 7 ++ [7, 0, 0].drop (1 + 2)) :=
  target_copy_rle_fill 2 [7, 0, 0] 1 7 (by decide) (by decide) (by decide)

/-- The extent-accumulator loop of `IpsPatch::new` computes, over the
records the spec-side parser sees, the running maximum of
`offset + record_len` starting from the initial value. -/
theorem ipsParseLoop_eq_recordsLoop :
    ∀ (fuel : Nat) (l : List Nat) (ts : Nat),
      ipsParseLoop fuel l ts =
        Option.map (fun p => (p.1.foldl (fun a r => max a (r.offset + r.record_len)) ts, p.2))
          (ipsRecordsLoop fuel l) := by
  intro fuel
  induction fuel with
  | zero => intro l ts; rfl
  | succ fuel ih =>
    intro l ts
    rcases l with - | ⟨b0, - | ⟨b1, - | ⟨b2, rest⟩⟩⟩
    · rfl
    · rfl
    · rfl
    · simp only [ipsParseLoop, ipsRecordsLoop]
      by_cases he : b0 * 65536 + b1 * 256 + b2 = 0x454F46
      · rw [if_pos he, if_pos he]
        rfl
      · rw [if_neg he, if_neg he]
        rcases rest with - | ⟨s0, - | ⟨s1, rest2⟩⟩
        · rfl
        · rfl
        · dsimp only
          by_cases hz : s0 * 256 + s1 = 0
          · rw [if_pos hz, if_pos hz]
            rcases rest2 with - | ⟨r0, - | ⟨r1, - | ⟨v, rest3⟩⟩⟩
            · rfl
            · rfl
            · rfl
            · dsimp only
              rw [ih]
              cases hrec : ipsRecordsLoop fuel rest3 with
              | none => rfl
              | some p =>
                obtain ⟨recs, rem⟩ := p
                rfl
          · rw [if_neg hz, if_neg hz]
            rw [ih]
            cases hrec : ipsRecordsLoop fuel (rest2.drop (s0 * 256 + s1)) with
            | none => rfl
            | some p =>
              obtain ⟨recs, rem⟩ := p
              rfl

/-- C5: `target_size()` of a successfully constructed `IpsPatch` is the
truncation override when a complete trailing 24-bit big-endian value
follows the `EOF` marker, and otherwise the maximum of the source ROM's
length and `offset + record_len` over all records. -/
theorem ips_target_size_extent_law
    (patch : List Nat) (source_len : Nat) (rest : List Nat)
    (recs : List IpsRecord) (rem : List Nat)
    (hm : patch = 0x50 :: 0x41 :: 0x54 :: 0x43 :: 0x48 :: rest)
    (hr : ips_records rest = some (recs, rem)) :
    ∃ p, ips_new patch source_len = some p ∧
      (∀ t rem2, readU24BE rem = some (t, rem2) → ips_target_size p = t) ∧
      (readU24BE rem = none →
        ips_target_size p =
          recs.foldl (fun a r => max a (r.offset + r.record_len)) source_len) := by
  subst hm
  unfold ips_records at hr
  have hparse := ipsParseLoop_eq_recordsLoop (rest.length + 1) rest source_len
  rw [hr] at hparse
  refine ⟨{ target_size := recs.foldl (fun a r => max a (r.offset + r.record_len)) source_len,
            truncated_size := Option.map (fun p => p.1) (readU24BE rem) }, ?_, ?_, ?_⟩
  · simp [ips_new, hparse]
  · intro t rem2 ht
    simp [ips_target_size, ht]
  · intro ht
    simp [ips_target_size, ht]

/-- C5 witness: spec scenario 5 — one RLE record of extent 4 on a
one-byte source, then a truncation override of 2. -/
theorem ips_target_size_extent_law_witness :
    ∃ p, ips_new ([0x50, 0x41, 0x54, 0x43, 0x48] ++ [0, 0, 0] ++ [0, 0] ++ [0, 4] ++ [0xFF]
        ++ [0x45, 0x4F, 0x46] ++ [0, 0, 2]) 1 = some p ∧
      (∀ t rem2, readU24BE [0, 0, 2] = some (t, rem2) → ips_target_size p = t) ∧
      (readU24BE [0, 0, 2] = none →
        ips_target_size p =
          List.foldl (fun a r => max a (r.offset + r.record_len))
            1 [({ offset := 0, record_len := 4 } : IpsRecord)]) :=
  ips_target_size_extent_law
    ([0x50, 0x41, 0x54, 0x43, 0x48] ++ [0, 0, 0] ++ [0, 0] ++ [0, 4] ++ [0xFF]
      ++ [0x45, 0x4F, 0x46] ++ [0, 0, 2]) 1
    ([0, 0, 0] ++ [0, 0] ++ [0, 4] ++ [0xFF] ++ [0x45, 0x4F, 0x46] ++ [0, 0, 2])
    [({ offset := 0, record_len := 4 } : IpsRecord)] [0, 0, 2] (by decide) (by decide)

theorem listResize_length (l : List Nat) (n : Nat) : (listResize l n).length = n := by
  unfold listResize
  simp only [List.length_append, List.length_take, List.length_replicate]
  omega

theorem listFill_length (l : List Nat) (i len v : Nat) (h : i + len ≤ l.length) :
    (listFill l i len v).length = l.length := by
  unfold listFill
  simp only [List.length_append, List.length_take, List.length_replicate, List.length_drop]
  omega

theorem writeSlice_length (l : List Nat) (i : Nat) (vals : List Nat)
    (h : i + vals.length ≤ l.length) : (writeSlice l i vals).length = l.length := by
  unfold writeSlice
  simp only [List.length_append, List.length_take, List.length_drop]
  omega

/-- The IPS record-application loop never changes the length of the
target buffer: RLE fills and data copies replace ranges in place. -/
theorem ipsApplyLoop_length :
    ∀ (fuel : Nat) (stream target out : List Nat),
      ipsApplyLoop fuel stream target = some out → out.length = target.length := by
  intro fuel
  induction fuel with
  | zero => intro stream target out h; exact absurd h (by simp [ipsApplyLoop])
  | succ fuel ih =>
    intro stream target out h
    rcases stream with - | ⟨b0, - | ⟨b1, - | ⟨b2, rest⟩⟩⟩
    · exact absurd h (by simp [ipsApplyLoop])
    · exact absurd h (by simp [ipsApplyLoop])
    · exact absurd h (by simp [ipsApplyLoop])
    · simp only [ipsApplyLoop] at h
      by_cases he : b0 * 65536 + b1 * 256 + b2 = 0x454F46
      · rw [if_pos he] at h
        simp only [Option.some.injEq] at h
        rw [← h]
      · rw [if_neg he] at h
        rcases rest with - | ⟨s0, - | ⟨s1, rest2⟩⟩
        · exact absurd h (by simp)
        · exact absurd h (by simp)
        · dsimp only at h
          by_cases hz : s0 * 256 + s1 = 0
          · rw [if_pos hz] at h
            rcases rest2 with - | ⟨r0, - | ⟨r1, - | ⟨v, rest3⟩⟩⟩
            · exact absurd h (by simp)
            · exact absurd h (by simp)
            · exact absurd h (by simp)
            · dsimp only at h
              by_cases hb : b0 * 65536 + b1 * 256 + b2 + (r0 * 256 + r1) ≤ target.length
              · rw [if_pos hb] at h
                have := ih rest3 _ out h
                rw [this]
                exact listFill_length target _ _ v (by omega)
              · rw [if_neg hb] at h
                exact absurd h (by simp)
          · rw [if_neg hz] at h
            by_cases hb : b0 * 65536 + b1 * 256 + b2 + (s0 * 256 + s1) ≤ target.length
                ∧ s0 * 256 + s1 ≤ rest2.length
            · rw [if_pos hb] at h
              have := ih (rest2.drop (s0 * 256 + s1)) _ out h
              rw [this]
              exact writeSlice_length target _ _
                (by simp only [List.length_take]; omega)
            · rw [if_neg hb] at h
              exact absurd h (by simp)

/-- C9: every successful `IpsPatch::patched_rom` returns a buffer whose
length is exactly `target_size()` — in particular, a truncation
override larger than the computed extent grows the buffer by zero
padding, since the final `Vec::resize(n, 0)` is not restricted to
shrinking. -/
theorem ips_patched_rom_length_eq_target_size
    (p : IpsPatchM) (patch source out : List Nat)
    (h : ips_patched_rom p patch source = some out) :
    out.length = ips_target_size p := by
  unfold ips_patched_rom at h
  split at h
  · rename_i rest
    cases happ : ipsApplyLoop (rest.length + 1) rest (listResize source p.target_size) with
    | none => rw [happ] at h; exact absurd h (by simp)
    | some target =>
      rw [happ] at h
      simp only [Option.some.injEq] at h
      have hlen : target.length = p.target_size := by
        rw [ipsApplyLoop_length _ _ _ _ happ, listResize_length]
      cases htr : p.truncated_size with
      | some t =>
        rw [htr] at h
        rw [← h, listResize_length]
        simp [ips_target_size, htr]
      | none =>
        rw [htr] at h
        rw [← h, hlen]
        simp [ips_target_size, htr]
  · exact absurd h (by simp)

/-- C9 witness: spec scenario 4's EOF-only patch with a grown truncation
override of 2 on a one-byte source: the result `[0xAA, 0]` has length
`target_size() = 2`. -/
theorem ips_patched_rom_length_eq_target_size_witness :
    ips_patched_rom { target_size := 1, truncated_size := some 2 }
        [0x50, 0x41, 0x54, 0x43, 0x48, 0x45, 0x4F, 0x46] [0xAA] = some [0xAA, 0] ∧
      ([0xAA, 0] : List Nat).length =
        ips_target_size { target_size := 1, truncated_size := some 2 } :=
  ⟨by decide,
    ips_patched_rom_length_eq_target_size { target_size := 1, truncated_size := some 2 }
      [0x50, 0x41, 0x54, 0x43, 0x48, 0x45, 0x4F, 0x46] [0xAA] [0xAA, 0] (by decide)⟩

/-- C8: when the scan finds no candidate source ROMs, `refresh` emits
the no-source-ROMs diagnostic and returns success with the visible map
empty — no patch is published and no error is propagated. -/
theorem refresh_no_source_roms_returns_success
    (setExt : String → String → String)
    (loadBps : DirEntryM → Except Unit BpsPatchData)
    (loadIps : DirEntryM → DirEntryM → Except Unit IpsPatchM)
    (entries : List DirEntryM)
    (h : (entries.filter (fun e => !e.is_dir)).filter
        (fun e => extension_matches e.ext ROM_EXTENSIONS) = []) :
    ∃ out, refresh setExt loadBps loadIps entries = Except.ok out ∧
      out.target_roms = [] ∧ RefreshDiag.noSourceRoms ∈ out.diags := by
  refine ⟨{ source_roms := [], target_roms := [],
            diags := [RefreshDiag.refreshing, RefreshDiag.noSourceRoms] }, ?_, rfl, by simp⟩
  simp only [refresh]
  rw [h]
  rfl

/-- C8 witness: a directory containing a single `.bps` file and no
source ROMs. -/
theorem refresh_no_source_roms_returns_success_witness :
    ∃ out, refresh (fun p _ => p) (fun _ => Except.error ()) (fun _ _ => Except.error ())
        [{ path := "a.bps", ext := "bps", is_dir := false, content := some [] }] =
        Except.ok out ∧
      out.target_roms = [] ∧ RefreshDiag.noSourceRoms ∈ out.diags :=
  refresh_no_source_roms_returns_success (fun p _ => p) (fun _ => Except.error ())
    (fun _ _ => Except.error ())
    [{ path := "a.bps", ext := "bps", is_dir := false, content := some [] }] (by decide)
